import Mathlib

/-!
Verification development for the Dev Edition Trial Center prompt-safety
pipeline.  The repository ships the Streamlit front end and the test suite;
the orchestration module itself (guardrail client, sanitizer, forge) is
modelled here from the specification, with the external discovery and
transform engine represented as an explicit capability record, matching how
the tests stub it out.
-/

namespace TrialCenter

/-- Modelled from the spec: the sanitization method enumeration
(protect = reversible tokenization, redact = irreversible masking). -/
inductive Method where
  | protect
  | redact
  deriving DecidableEq, Repr

/-- Modelled from the spec: an entity occurrence location span. -/
structure Location where
  start_index : Nat
  end_index : Nat
  deriving DecidableEq, Repr

/-- Discovery results: a mapping from entity label to occurrence list,
kept as an association list. -/
abbrev Entities := List (String × List Location)

/-- Modelled from the spec: the external discovery and sensitivity
transform capability (the vendor engine is a black box; the pipeline module
is absent from the repository sources, so its collaborators are parameters).
Fallible calls return Except. -/
structure Capability where
  discover : String → Entities
  find_and_protect : String → Except String String
  find_and_redact : String → Except String String
  find_and_unprotect : String → Except String String

/-- Observable interaction with the capability: configure calls carrying a
named entity map, transform calls, and unprotect calls. -/
inductive Event where
  | configure (named_entity_map : List (String × String))
  | transform (m : Method) (line : String)
  | unprotect (text : String)
  deriving DecidableEq, Repr

/-- Modelled from the spec: sanitization configuration; the fallback method
defaults to redact (the value the front end passes and the pipeline tests
rely on). -/
structure SanitizationConfig where
  method : Method
  fallback_method : Method := Method.redact
  deriving DecidableEq, Repr

/-- Modelled from the spec: the sanitization result record. -/
structure SanitizationResult where
  method_used : Method
  sanitized_prompt : String
  raw_sanitized_prompt : String
  display_prompt : String
  discovery_entities : Entities
  unprotected_prompt : Option String
  sanitize_error : Option String
  unprotect_error : Option String
  deriving DecidableEq, Repr

/-! ### Character-level string utilities -/

/-- Whether a string contains the pipe separator (composite-label marker). -/
def hasPipe (s : String) : Bool := decide ('|' ∈ s.data)

/-- Prepend a character onto the first chunk of a chunk list. -/
def consHead (a : Char) : List (List Char) → List (List Char)
  | [] => [[a]]
  | h :: t => (a :: h) :: t

/-- Split a character list on a separator character; always returns at
least one chunk and chunks never contain the separator. -/
def splitOnChar (c : Char) : List Char → List (List Char)
  | [] => [[]]
  | a :: rest =>
    if a = c then [] :: splitOnChar c rest
    else consHead a (splitOnChar c rest)

/-- Join chunks with a separator character (inverse of splitOnChar). -/
def joinWith (c : Char) : List (List Char) → List Char
  | [] => []
  | [x] => x
  | x :: y :: t => x ++ c :: joinWith c (y :: t)

/-- Modelled from the spec: split a prompt into its lines. -/
def splitLines (s : String) : List String :=
  (splitOnChar '\n' s.data).map List.asString

/-- Modelled from the spec: rejoin line results with the original line
breaks. -/
def joinLines (ls : List String) : String :=
  (joinWith '\n' (ls.map String.data)).asString

theorem data_asString (l : List Char) : (List.asString l).data = l := rfl

theorem asString_data (s : String) : s.data.asString = s := by
  cases s
  rfl

theorem splitOnChar_ne_nil (c : Char) (l : List Char) : splitOnChar c l ≠ [] := by
  induction l with
  | nil => simp [splitOnChar]
  | cons a rest ih =>
    simp only [splitOnChar]
    by_cases h : a = c
    · simp [h]
    · simp only [if_neg h]
      cases splitOnChar c rest with
      | nil => simp [consHead]
      | cons x t => simp [consHead]

theorem not_mem_of_mem_splitOnChar (c : Char) (l : List Char) :
    ∀ ys ∈ splitOnChar c l, c ∉ ys := by
  induction l with
  | nil =>
    intro ys hys
    simp [splitOnChar] at hys
    simp [hys]
  | cons a rest ih =>
    intro ys hys
    simp only [splitOnChar] at hys
    by_cases h : a = c
    · rw [if_pos h] at hys
      rcases List.mem_cons.mp hys with h1 | h1
      · simp [h1]
      · exact ih ys h1
    · rw [if_neg h] at hys
      rcases hS : splitOnChar c rest with _ | ⟨x, t⟩
      · exact absurd hS (splitOnChar_ne_nil c rest)
      · rw [hS] at hys
        simp only [consHead] at hys
        rcases List.mem_cons.mp hys with h1 | h1
        · subst h1
          intro hmem
          rcases List.mem_cons.mp hmem with h2 | h2
          · exact h h2.symm
          · exact ih x (by rw [hS]; exact List.mem_cons_self x t) h2
        · exact ih ys (by rw [hS]; exact List.mem_cons_of_mem x h1)

theorem joinWith_cons_cons (c : Char) (x : List Char) (S : List (List Char))
    (hS : S ≠ []) : joinWith c (x :: S) = x ++ c :: joinWith c S := by
  cases S with
  | nil => exact absurd rfl hS
  | cons y t => rfl

theorem joinWith_consHead (c a : Char) (S : List (List Char)) (hS : S ≠ []) :
    joinWith c (consHead a S) = a :: joinWith c S := by
  cases S with
  | nil => exact absurd rfl hS
  | cons h t =>
    cases t with
    | nil => rfl
    | cons y t' => rfl

theorem joinWith_splitOnChar (c : Char) (l : List Char) :
    joinWith c (splitOnChar c l) = l := by
  induction l with
  | nil => rfl
  | cons a rest ih =>
    simp only [splitOnChar]
    by_cases h : a = c
    · rw [if_pos h,
        joinWith_cons_cons c [] (splitOnChar c rest) (splitOnChar_ne_nil c rest)]
      simp [ih, h]
    · rw [if_neg h,
        joinWith_consHead c a (splitOnChar c rest) (splitOnChar_ne_nil c rest), ih]

theorem joinLines_splitLines (s : String) : joinLines (splitLines s) = s := by
  unfold joinLines splitLines
  rw [List.map_map]
  have : (String.data ∘ List.asString) = id := by
    funext l
    rfl
  rw [this, List.map_id, joinWith_splitOnChar, asString_data]

theorem splitOnChar_of_not_mem (c : Char) (l : List Char) (h : c ∉ l) :
    splitOnChar c l = [l] := by
  induction l with
  | nil => rfl
  | cons a rest ih =>
    simp only [splitOnChar]
    have ha : a ≠ c := fun hac => h (hac ▸ List.mem_cons_self a rest)
    rw [if_neg ha, ih (fun hm => h (List.mem_cons_of_mem a hm))]
    rfl

theorem splitLines_single (s : String) (h : '\n' ∉ s.data) :
    splitLines s = [s] := by
  unfold splitLines
  rw [splitOnChar_of_not_mem '\n' s.data h]
  simp [asString_data]

theorem joinLines_singleton (s : String) : joinLines [s] = s := by
  unfold joinLines
  simp [joinWith, asString_data]

/-! ### Composite-label normalization -/

/-- Modelled from the spec: the first constituent type of a
(possibly composite) label, obtained by splitting on the pipe separator. -/
def canonicalOf (label : String) : String :=
  ((splitOnChar '|' label.data).headD label.data).asString

/-- The canonical key a discovered label is exposed under: composite labels
collapse to their first constituent, plain labels stay unchanged. -/
def normKey (label : String) : String :=
  if hasPipe label then canonicalOf label else label

/-- Modelled from the spec: the named entity map registered with the
transformer, sending each composite label to its first constituent. -/
def compositeMap (ents : Entities) : List (String × String) :=
  (ents.filter (fun e => hasPipe e.1)).map (fun e => (e.1, canonicalOf e.1))

/-- Add occurrences under a label, appending to an existing entry when the
label is already present. -/
def insertOccurrences (label : String) (occs : List Location) :
    Entities → Entities
  | [] => [(label, occs)]
  | (l, os) :: rest =>
    if l = label then (l, os ++ occs) :: rest
    else (l, os) :: insertOccurrences label occs rest

/-- Merge a batch of entries into an accumulated mapping. -/
def insertAll (base : Entities) (items : Entities) : Entities :=
  items.foldl (fun acc e => insertOccurrences e.1 e.2 acc) base

/-- Modelled from the spec: fold composite-keyed occurrences into the
canonical type and drop the composite key from the exposed mapping. -/
def normalizeEntities (ents : Entities) : Entities :=
  insertAll [] (ents.map (fun e => (normKey e.1, e.2)))

/-- The labels exposed by an entity mapping. -/
def keysOf (E : Entities) : List String := E.map Prod.fst

theorem hasPipe_canonicalOf (label : String) :
    hasPipe (canonicalOf label) = false := by
  unfold hasPipe canonicalOf
  rcases hS : splitOnChar '|' label.data with _ | ⟨x, t⟩
  · exact absurd hS (splitOnChar_ne_nil '|' label.data)
  · have hx : '|' ∉ x := by
      apply not_mem_of_mem_splitOnChar '|' label.data
      rw [hS]
      exact List.mem_cons_self x t
    simp [data_asString, hx]

theorem hasPipe_normKey (label : String) : hasPipe (normKey label) = false := by
  unfold normKey
  by_cases h : hasPipe label
  · simp [h, hasPipe_canonicalOf]
  · simp only [Bool.not_eq_true] at h
    simp [h]

theorem mem_compositeMap (ents : Entities) (lab : String) (occs : List Location)
    (hmem : (lab, occs) ∈ ents) (hp : hasPipe lab = true) :
    (lab, canonicalOf lab) ∈ compositeMap ents := by
  unfold compositeMap
  apply List.mem_map.mpr
  refine ⟨(lab, occs), ?_, rfl⟩
  exact List.mem_filter.mpr ⟨hmem, hp⟩

theorem keysOf_insertOccurrences (label : String) (occs : List Location)
    (E : Entities) (k : String) (h : k ∈ keysOf (insertOccurrences label occs E)) :
    k = label ∨ k ∈ keysOf E := by
  induction E with
  | nil =>
    simp [insertOccurrences, keysOf] at h
    exact Or.inl h
  | cons e rest ih =>
    obtain ⟨l, os⟩ := e
    simp only [insertOccurrences] at h
    by_cases hl : l = label
    · rw [if_pos hl] at h
      simp only [keysOf, List.map_cons, List.mem_cons] at h
      rcases h with h | h
      · exact Or.inl (h.trans hl)
      · exact Or.inr (List.mem_cons_of_mem l h)
    · rw [if_neg hl] at h
      simp only [keysOf, List.map_cons, List.mem_cons] at h
      rcases h with h | h
      · exact Or.inr (by simp [keysOf, h])
      · rcases ih h with h1 | h1
        · exact Or.inl h1
        · exact Or.inr (by simp only [keysOf, List.map_cons, List.mem_cons]; exact Or.inr h1)

theorem keysOf_insertAll (base items : Entities) (k : String)
    (h : k ∈ keysOf (insertAll base items)) :
    k ∈ keysOf base ∨ k ∈ keysOf items := by
  induction items generalizing base with
  | nil =>
    exact Or.inl h
  | cons e rest ih =>
    simp only [insertAll, List.foldl_cons] at h
    rcases ih (insertOccurrences e.1 e.2 base) h with h1 | h1
    · rcases keysOf_insertOccurrences e.1 e.2 base k h1 with h2 | h2
      · exact Or.inr (by simp [keysOf, h2])
      · exact Or.inl h2
    · exact Or.inr (by simp only [keysOf, List.map_cons, List.mem_cons]; exact Or.inr h1)

theorem keysOf_normalizeEntities (ents : Entities) (k : String)
    (h : k ∈ keysOf (normalizeEntities ents)) : hasPipe k = false := by
  unfold normalizeEntities at h
  rcases keysOf_insertAll [] (ents.map (fun e => (normKey e.1, e.2))) k h with h1 | h1
  · simp [keysOf] at h1
  · simp only [keysOf, List.map_map, List.mem_map] at h1
    obtain ⟨e, _, he⟩ := h1
    rw [← he]
    exact hasPipe_normKey e.1

/-! ### Display masking -/

/-- Skip forward past the first closing token marker, returning the
remainder after it (or none when no closing marker exists). -/
def dropThroughClose : List Char → Option (List Char)
  | [] => none
  | c :: rest =>
    if "[/TOKEN]".data.isPrefixOf (c :: rest) then some ((c :: rest).drop 8)
    else dropThroughClose rest

/-- Modelled from the spec: replace the variable payload between each token
marker pair with the fixed mask, leaving everything else untouched.  The
fuel argument bounds the scan by the input length. -/
def maskAux : Nat → List Char → List Char
  | 0, l => l
  | _ + 1, [] => []
  | fuel + 1, c :: rest =>
    if "[TOKEN]".data.isPrefixOf (c :: rest) then
      match dropThroughClose ((c :: rest).drop 7) with
      | some rem => "[TOKEN]***[/TOKEN]".data ++ maskAux fuel rem
      | none => c :: rest
    else c :: maskAux fuel rest

/-- Modelled from the spec: the display-safe preview of a protected text,
with every token payload replaced by the fixed mask. -/
def maskTokens (s : String) : String :=
  (maskAux s.data.length s.data).asString

/-! ### The prompt sanitizer -/

/-- The error message recorded when the protect call silently leaves the
text unchanged despite discovered entities. -/
def silentFailureMessage : String :=
  "Protection did not modify the text despite discovered entities"

/-- Dispatch a transform call to the capability for the given method. -/
def transformFor (cap : Capability) (m : Method) (line : String) :
    Except String String :=
  match m with
  | Method.protect => cap.find_and_protect line
  | Method.redact => cap.find_and_redact line

/-- Modelled from the spec: the silent-failure heuristic, gated on the
protect method, unchanged output and discovered entities. -/
def silentFailure (cfg : SanitizationConfig) (ents : Entities)
    (line out : String) : Bool :=
  cfg.method == Method.protect && out == line && !ents.isEmpty

/-- The outcome of sanitizing a single line. -/
structure LineOutcome where
  text : String
  rawText : String
  usedFallback : Bool
  err : Option String
  events : List Event
  entities : Entities
  deriving DecidableEq, Repr

/-- Modelled from the spec (the pipeline module is absent from the
repository sources): sanitize one non-empty line — discover entities,
register the composite-label map, invoke the primary transform, fall back
once to the fallback method when the primary call raises, and detect silent
protection failures. -/
def sanitizeLine (cfg : SanitizationConfig) (cap : Capability)
    (line : String) : LineOutcome :=
  match transformFor cap cfg.method line with
  | Except.ok out =>
    if silentFailure cfg (cap.discover line) line out then
      { text := line, rawText := line, usedFallback := false,
        err := some silentFailureMessage,
        events := [Event.configure (compositeMap (cap.discover line)),
          Event.transform cfg.method line],
        entities := normalizeEntities (cap.discover line) }
    else
      { text := out, rawText := out, usedFallback := false,
        err := none,
        events := [Event.configure (compositeMap (cap.discover line)),
          Event.transform cfg.method line],
        entities := normalizeEntities (cap.discover line) }
  | Except.error msg =>
    if cfg.fallback_method = cfg.method then
      { text := line, rawText := line, usedFallback := false,
        err := some msg,
        events := [Event.configure (compositeMap (cap.discover line)),
          Event.transform cfg.method line],
        entities := normalizeEntities (cap.discover line) }
    else
      match transformFor cap cfg.fallback_method line with
      | Except.ok out =>
        { text := out, rawText := out, usedFallback := true,
          err := none,
          events := [Event.configure (compositeMap (cap.discover line)),
            Event.transform cfg.method line,
            Event.transform cfg.fallback_method line],
          entities := normalizeEntities (cap.discover line) }
      | Except.error _ =>
        { text := line, rawText := line, usedFallback := true,
          err := some msg,
          events := [Event.configure (compositeMap (cap.discover line)),
            Event.transform cfg.method line,
            Event.transform cfg.fallback_method line],
          entities := normalizeEntities (cap.discover line) }

/-- Empty lines pass through unchanged, with no capability interaction. -/
def passOutcome (line : String) : LineOutcome :=
  { text := line, rawText := line, usedFallback := false,
    err := none, events := [], entities := [] }

/-- Per-line dispatch: empty lines pass through, non-empty lines are
sanitized. -/
def lineOutcome (cfg : SanitizationConfig) (cap : Capability)
    (line : String) : LineOutcome :=
  if line = "" then passOutcome line else sanitizeLine cfg cap line

/-- The per-line outcomes of a sanitize call, in original line order. -/
def lineOutcomes (cfg : SanitizationConfig) (cap : Capability)
    (prompt : String) : List LineOutcome :=
  (splitLines prompt).map (lineOutcome cfg cap)

/-- The reassembled sanitized text. -/
def joinedOf (cfg : SanitizationConfig) (cap : Capability)
    (prompt : String) : String :=
  joinLines ((lineOutcomes cfg cap prompt).map (fun o => o.text))

/-- The reassembled raw (pre-masking) sanitized text. -/
def rawOf (cfg : SanitizationConfig) (cap : Capability)
    (prompt : String) : String :=
  joinLines ((lineOutcomes cfg cap prompt).map (fun o => o.rawText))

/-- Modelled from the spec: the method actually used — the fallback method
when any line fell back, the primary method otherwise. -/
def methodUsedOf (cfg : SanitizationConfig) (cap : Capability)
    (prompt : String) : Method :=
  if (lineOutcomes cfg cap prompt).any (fun o => o.usedFallback) then
    cfg.fallback_method
  else cfg.method

/-- The first per-line sanitize error, if any. -/
def errOf (cfg : SanitizationConfig) (cap : Capability)
    (prompt : String) : Option String :=
  ((lineOutcomes cfg cap prompt).filterMap (fun o => o.err)).head?

/-- The accumulated discovery entities over all lines. -/
def entitiesOf (cfg : SanitizationConfig) (cap : Capability)
    (prompt : String) : Entities :=
  (lineOutcomes cfg cap prompt).foldl (fun acc o => insertAll acc o.entities) []

/-- The capability interaction trace of the per-line phase. -/
def baseEventsOf (cfg : SanitizationConfig) (cap : Capability)
    (prompt : String) : List Event :=
  ((lineOutcomes cfg cap prompt).map (fun o => o.events)).flatten

/-- Modelled from the spec (the pipeline module is absent from the
repository sources): the full sanitize operation, returning the result
record together with the capability interaction trace.  When the method
used ends up protect and no error was recorded, one reversal call is
attempted on the raw sanitized text. -/
def sanitize (cfg : SanitizationConfig) (cap : Capability)
    (prompt : String) : SanitizationResult × List Event :=
  if methodUsedOf cfg cap prompt = Method.protect ∧
      errOf cfg cap prompt = none then
    match cap.find_and_unprotect (rawOf cfg cap prompt) with
    | Except.ok u =>
      ({ method_used := methodUsedOf cfg cap prompt,
         sanitized_prompt := joinedOf cfg cap prompt,
         raw_sanitized_prompt := rawOf cfg cap prompt,
         display_prompt := maskTokens (rawOf cfg cap prompt),
         discovery_entities := entitiesOf cfg cap prompt,
         unprotected_prompt := some u,
         sanitize_error := none,
         unprotect_error := none },
       baseEventsOf cfg cap prompt ++ [Event.unprotect (rawOf cfg cap prompt)])
    | Except.error m =>
      ({ method_used := methodUsedOf cfg cap prompt,
         sanitized_prompt := joinedOf cfg cap prompt,
         raw_sanitized_prompt := rawOf cfg cap prompt,
         display_prompt := maskTokens (rawOf cfg cap prompt),
         discovery_entities := entitiesOf cfg cap prompt,
         unprotected_prompt := none,
         sanitize_error := none,
         unprotect_error := some m },
       baseEventsOf cfg cap prompt ++ [Event.unprotect (rawOf cfg cap prompt)])
  else
    ({ method_used := methodUsedOf cfg cap prompt,
       sanitized_prompt := joinedOf cfg cap prompt,
       raw_sanitized_prompt := rawOf cfg cap prompt,
       display_prompt :=
         if methodUsedOf cfg cap prompt = Method.protect then
           maskTokens (rawOf cfg cap prompt)
         else joinedOf cfg cap prompt,
       discovery_entities := entitiesOf cfg cap prompt,
       unprotected_prompt := none,
       sanitize_error := errOf cfg cap prompt,
       unprotect_error := none },
     baseEventsOf cfg cap prompt)

/-! ### The guardrail client and the forge -/

/-- Modelled from the spec: guardrail client configuration. -/
structure GuardrailConfig where
  url : String := "http://localhost:8581"
  rejection_threshold : ℚ := 1 / 2
  timeout : Nat := 30
  deriving DecidableEq, Repr

/-- Modelled from the spec: one processor entry of a scoring response. -/
structure Processor where
  name : String
  score : ℚ
  explanation : String
  deriving DecidableEq, Repr

/-- Modelled from the spec: one message of a scoring response. -/
structure GuardrailMessage where
  id : String
  outcome : Option String
  score : ℚ
  processors : List Processor
  deriving DecidableEq, Repr

/-- Modelled from the spec: the scoring endpoint response body. -/
structure GuardrailResponse where
  messages : List GuardrailMessage
  deriving DecidableEq, Repr

/-- Modelled from the spec: the structured guardrail result. -/
structure GuardrailResult where
  outcome : String
  score : ℚ
  explanation : Option String
  raw_response : GuardrailResponse
  deriving DecidableEq, Repr

/-- Modelled from the spec: pick the explanation of the first processor
with a non-empty explanation, else of the first processor. -/
def pickExplanation (procs : List Processor) : Option String :=
  match procs.find? (fun p => !(p.explanation == "")) with
  | some p => some p.explanation
  | none => procs.head?.map (fun p => p.explanation)

/-- Modelled from the spec (the pipeline module is absent from the
repository sources): the semantic guardrail client scoring call.  It issues
a single post to the scoring endpoint (recorded in the returned trace),
reads outcome and score from the first message, and surfaces transport or
malformed-response failures as errors.  The remote outcome is authoritative;
the local threshold is consulted only when the remote omits an outcome. -/
def score_prompt (cfg : GuardrailConfig)
    (post : String → String → Except String GuardrailResponse)
    (prompt domain : String) :
    Except String GuardrailResult × List (String × String) :=
  ((match post prompt domain with
    | Except.error e => Except.error e
    | Except.ok resp =>
      match resp.messages.head? with
      | none => Except.error "guardrail response contained no messages"
      | some msg =>
        Except.ok
          { outcome := msg.outcome.getD
              (if cfg.rejection_threshold ≤ msg.score then "rejected"
               else "accepted"),
            score := msg.score,
            explanation := pickExplanation msg.processors,
            raw_response := resp }),
   [(prompt, domain)])

/-- Modelled from the spec: the combined report handed to the caller. -/
structure ForgeReport where
  guardrail : Option GuardrailResult
  sanitization : SanitizationResult

/-- Modelled from the spec (the pipeline module is absent from the
repository sources): the forge runs the guardrail client and the sanitizer
and always returns a complete report; a guardrail failure leaves the
guardrail section empty instead of aborting the call. -/
def process_prompt (gcfg : GuardrailConfig) (scfg : SanitizationConfig)
    (post : String → String → Except String GuardrailResponse)
    (cap : Capability) (prompt domain : String) : ForgeReport :=
  { guardrail := ((score_prompt gcfg post prompt domain).fst).toOption,
    sanitization := (sanitize scfg cap prompt).fst }

/-! ### Characterization lemmas for the sanitize fields -/

theorem sanitize_method_used (cfg : SanitizationConfig) (cap : Capability)
    (prompt : String) :
    (sanitize cfg cap prompt).fst.method_used = methodUsedOf cfg cap prompt := by
  unfold sanitize
  split
  · split <;> rfl
  · rfl

theorem sanitize_sanitized (cfg : SanitizationConfig) (cap : Capability)
    (prompt : String) :
    (sanitize cfg cap prompt).fst.sanitized_prompt = joinedOf cfg cap prompt := by
  unfold sanitize
  split
  · split <;> rfl
  · rfl

theorem sanitize_raw (cfg : SanitizationConfig) (cap : Capability)
    (prompt : String) :
    (sanitize cfg cap prompt).fst.raw_sanitized_prompt = rawOf cfg cap prompt := by
  unfold sanitize
  split
  · split <;> rfl
  · rfl

theorem sanitize_err (cfg : SanitizationConfig) (cap : Capability)
    (prompt : String) :
    (sanitize cfg cap prompt).fst.sanitize_error = errOf cfg cap prompt := by
  unfold sanitize
  split
  · rename_i h
    split <;> exact h.2.symm
  · rfl

theorem sanitize_entities (cfg : SanitizationConfig) (cap : Capability)
    (prompt : String) :
    (sanitize cfg cap prompt).fst.discovery_entities = entitiesOf cfg cap prompt := by
  unfold sanitize
  split
  · split <;> rfl
  · rfl

theorem sanitize_display_protect (cfg : SanitizationConfig) (cap : Capability)
    (prompt : String) (h : methodUsedOf cfg cap prompt = Method.protect) :
    (sanitize cfg cap prompt).fst.display_prompt
      = maskTokens (rawOf cfg cap prompt) := by
  unfold sanitize
  split
  · split <;> rfl
  · simp only [if_pos h]

theorem sanitize_display_redact (cfg : SanitizationConfig) (cap : Capability)
    (prompt : String) (h : methodUsedOf cfg cap prompt = Method.redact) :
    (sanitize cfg cap prompt).fst.display_prompt = joinedOf cfg cap prompt := by
  have hne : ¬ methodUsedOf cfg cap prompt = Method.protect := by
    rw [h]
    intro hc
    cases hc
  unfold sanitize
  split
  · rename_i hc
    exact absurd hc.1 hne
  · simp only [if_neg hne]

theorem sanitize_unprotected_of_not (cfg : SanitizationConfig) (cap : Capability)
    (prompt : String)
    (h : ¬ (methodUsedOf cfg cap prompt = Method.protect ∧
        errOf cfg cap prompt = none)) :
    (sanitize cfg cap prompt).fst.unprotected_prompt = none := by
  unfold sanitize
  rw [if_neg h]

theorem sanitize_unprotected_ok (cfg : SanitizationConfig) (cap : Capability)
    (prompt : String) (u : String)
    (hm : methodUsedOf cfg cap prompt = Method.protect)
    (he : errOf cfg cap prompt = none)
    (hu : cap.find_and_unprotect (rawOf cfg cap prompt) = Except.ok u) :
    (sanitize cfg cap prompt).fst.unprotected_prompt = some u := by
  unfold sanitize
  rw [if_pos ⟨hm, he⟩, hu]

/-- The transform calls appearing in an event trace. -/
def transformCalls (evs : List Event) : List Event :=
  evs.filter fun e =>
    match e with
    | Event.transform _ _ => true
    | _ => false

theorem transformCalls_append (a b : List Event) :
    transformCalls (a ++ b) = transformCalls a ++ transformCalls b :=
  List.filter_append a b

theorem transformCalls_flatten (L : List (List Event)) :
    transformCalls L.flatten = (L.map transformCalls).flatten := by
  induction L with
  | nil => rfl
  | cons x t ih =>
    simp only [List.flatten_cons, transformCalls_append, ih, List.map_cons]

theorem sanitize_transformCalls (cfg : SanitizationConfig) (cap : Capability)
    (prompt : String) :
    transformCalls (sanitize cfg cap prompt).snd
      = transformCalls (baseEventsOf cfg cap prompt) := by
  unfold sanitize
  split
  · split <;>
      simp [transformCalls_append, transformCalls, List.filter]
  · rfl

theorem sanitize_events_shape (cfg : SanitizationConfig) (cap : Capability)
    (prompt : String) :
    ∃ extra, (sanitize cfg cap prompt).snd
      = baseEventsOf cfg cap prompt ++ extra := by
  unfold sanitize
  split
  · split
    · exact ⟨_, rfl⟩
    · exact ⟨_, rfl⟩
  · exact ⟨[], (List.append_nil _).symm⟩

/-! ### Characterization lemmas for single-line outcomes -/

theorem sanitizeLine_ok (cfg : SanitizationConfig) (cap : Capability)
    (line out : String)
    (h1 : transformFor cap cfg.method line = Except.ok out)
    (h2 : silentFailure cfg (cap.discover line) line out = false) :
    sanitizeLine cfg cap line =
      { text := out, rawText := out, usedFallback := false, err := none,
        events := [Event.configure (compositeMap (cap.discover line)),
          Event.transform cfg.method line],
        entities := normalizeEntities (cap.discover line) } := by
  unfold sanitizeLine
  rw [h1]
  simp [h2]

theorem sanitizeLine_silent (cfg : SanitizationConfig) (cap : Capability)
    (line out : String)
    (h1 : transformFor cap cfg.method line = Except.ok out)
    (h2 : silentFailure cfg (cap.discover line) line out = true) :
    sanitizeLine cfg cap line =
      { text := line, rawText := line, usedFallback := false,
        err := some silentFailureMessage,
        events := [Event.configure (compositeMap (cap.discover line)),
          Event.transform cfg.method line],
        entities := normalizeEntities (cap.discover line) } := by
  unfold sanitizeLine
  rw [h1]
  simp [h2]

theorem sanitizeLine_fallback_ok (cfg : SanitizationConfig) (cap : Capability)
    (line msg out : String)
    (h1 : transformFor cap cfg.method line = Except.error msg)
    (hne : cfg.fallback_method ≠ cfg.method)
    (h2 : transformFor cap cfg.fallback_method line = Except.ok out) :
    sanitizeLine cfg cap line =
      { text := out, rawText := out, usedFallback := true, err := none,
        events := [Event.configure (compositeMap (cap.discover line)),
          Event.transform cfg.method line,
          Event.transform cfg.fallback_method line],
        entities := normalizeEntities (cap.discover line) } := by
  unfold sanitizeLine
  rw [h1]
  simp [hne, h2]

theorem sanitizeLine_err_text (cfg : SanitizationConfig) (cap : Capability)
    (line : String) :
    ((sanitizeLine cfg cap line).err).isSome = true →
    (sanitizeLine cfg cap line).text = line := by
  unfold sanitizeLine
  split
  · split
    · intro _
      rfl
    · intro hcon
      simp at hcon
  · split
    · intro _
      rfl
    · split
      · intro hcon
        simp at hcon
      · intro _
        rfl

theorem sanitizeLine_events_head (cfg : SanitizationConfig) (cap : Capability)
    (line : String) :
    ∃ tail, (sanitizeLine cfg cap line).events
      = Event.configure (compositeMap (cap.discover line))
        :: Event.transform cfg.method line :: tail := by
  unfold sanitizeLine
  split
  · split
    · exact ⟨[], rfl⟩
    · exact ⟨[], rfl⟩
  · split
    · exact ⟨[], rfl⟩
    · split
      · exact ⟨_, rfl⟩
      · exact ⟨_, rfl⟩

theorem sanitizeLine_entities (cfg : SanitizationConfig) (cap : Capability)
    (line : String) :
    (sanitizeLine cfg cap line).entities
      = normalizeEntities (cap.discover line) := by
  unfold sanitizeLine
  split
  · split <;> rfl
  · split
    · rfl
    · split <;> rfl

/-! ### Small list helpers -/

theorem filterMap_none_of_all {α β : Type} (f : α → Option β) (l : List α)
    (h : ∀ a ∈ l, f a = none) : l.filterMap f = [] := by
  induction l with
  | nil => rfl
  | cons a t ih =>
    rw [List.filterMap_cons, h a (List.mem_cons_self a t)]
    exact ih (fun x hx => h x (List.mem_cons_of_mem a hx))

theorem head?_of_all_eq {α : Type} (l : List α) (m : α) (hne : l ≠ [])
    (h : ∀ x ∈ l, x = m) : l.head? = some m := by
  cases l with
  | nil => exact absurd rfl hne
  | cons a t =>
    rw [List.head?_cons, h a (List.mem_cons_self a t)]

theorem map_congr_mem {α β : Type} (f g : α → β) (l : List α)
    (h : ∀ a ∈ l, f a = g a) : l.map f = l.map g := by
  induction l with
  | nil => rfl
  | cons a t ih =>
    rw [List.map_cons, List.map_cons, h a (List.mem_cons_self a t)]
    rw [ih (fun x hx => h x (List.mem_cons_of_mem a hx))]

theorem any_eq_false_of_all {α : Type} (p : α → Bool) (l : List α)
    (h : ∀ a ∈ l, p a = false) : l.any p = false := by
  induction l with
  | nil => rfl
  | cons a t ih =>
    rw [List.any_cons, h a (List.mem_cons_self a t)]
    rw [ih (fun x hx => h x (List.mem_cons_of_mem a hx))]
    rfl

theorem find?_isSome_of_ex {α : Type} (p : α → Bool) (l : List α)
    (h : ∃ x ∈ l, p x = true) : (l.find? p).isSome = true := by
  induction l with
  | nil =>
    obtain ⟨x, hx, _⟩ := h
    cases hx
  | cons a t ih =>
    by_cases hp : p a = true
    · rw [List.find?_cons_of_pos t hp]
      rfl
    · rw [List.find?_cons_of_neg t hp]
      apply ih
      obtain ⟨x, hx, hpx⟩ := h
      rcases List.mem_cons.mp hx with h1 | h1
      · subst h1
        exact absurd hpx hp
      · exact ⟨x, h1, hpx⟩

/-! ### Claims about the guardrail client and forge -/

/-- Claim C2: for every prompt and every guardrail configuration, the
outcome in the forge report guardrail section equals exactly the outcome
string reported by the remote scoring service, never recomputed from the
local rejection threshold. -/
theorem claim2_remote_outcome_authoritative
    (gcfg : GuardrailConfig) (scfg : SanitizationConfig)
    (post : String → String → Except String GuardrailResponse)
    (cap : Capability) (prompt domain : String)
    (resp : GuardrailResponse) (msg : GuardrailMessage) (o : String)
    (hpost : post prompt domain = Except.ok resp)
    (hmsg : resp.messages.head? = some msg)
    (hout : msg.outcome = some o) :
    ∃ r, (process_prompt gcfg scfg post cap prompt domain).guardrail = some r
      ∧ r.outcome = o := by
  have hscore : (score_prompt gcfg post prompt domain).fst
      = Except.ok
          { outcome := o, score := msg.score,
            explanation := pickExplanation msg.processors,
            raw_response := resp } := by
    unfold score_prompt
    rw [hpost]
    dsimp only
    rw [hmsg]
    dsimp only
    rw [hout]
    rfl
  unfold process_prompt
  rw [hscore]
  exact ⟨_, rfl, rfl⟩

/-- A processor entry carrying a non-empty explanation. -/
def procSensitive : Processor :=
  { name := "semantic", score := 0.49, explanation := "sensitive" }

/-- The message of the outcome-preservation scenario: remote score 0.49
with remote outcome approved. -/
def msgPreserve : GuardrailMessage :=
  { id := "1", outcome := some "approved", score := 0.49,
    processors := [procSensitive] }

/-- The scoring response of the outcome-preservation scenario. -/
def respPreserve : GuardrailResponse := { messages := [msgPreserve] }

/-- A stub scoring endpoint always returning the preservation response. -/
def postPreserve : String → String → Except String GuardrailResponse :=
  fun _ _ => Except.ok respPreserve

/-- A stub capability with no entities and identity redaction. -/
def capNoop : Capability :=
  { discover := fun _ => []
    find_and_protect := fun _ => Except.error "protection off"
    find_and_redact := fun l => Except.ok l
    find_and_unprotect := fun _ => Except.error "protection off" }

/-- Witness for C2: local threshold 0.3, remote score 0.49 and remote
outcome approved yield the reported outcome approved. -/
theorem claim2_witness :
    ∃ r, (process_prompt { rejection_threshold := 0.3 }
        { method := Method.redact } postPreserve capNoop
        "Prompt" "customer-support").guardrail = some r
      ∧ r.outcome = "approved" :=
  claim2_remote_outcome_authoritative { rejection_threshold := 0.3 }
    { method := Method.redact } postPreserve capNoop "Prompt"
    "customer-support" respPreserve msgPreserve "approved" rfl rfl rfl

/-- Claim C9: process_prompt never propagates a sub-call failure; when the
guardrail scoring call fails, the returned report has an empty guardrail
section and still carries the sanitization result. -/
theorem claim9_forge_total
    (gcfg : GuardrailConfig) (scfg : SanitizationConfig)
    (post : String → String → Except String GuardrailResponse)
    (cap : Capability) (prompt domain : String) (e : String)
    (hfail : (score_prompt gcfg post prompt domain).fst = Except.error e) :
    (process_prompt gcfg scfg post cap prompt domain).guardrail = none
    ∧ (process_prompt gcfg scfg post cap prompt domain).sanitization
        = (sanitize scfg cap prompt).fst := by
  unfold process_prompt
  rw [hfail]
  exact ⟨rfl, rfl⟩

/-- A stub scoring endpoint that always fails at transport level. -/
def postFail : String → String → Except String GuardrailResponse :=
  fun _ _ => Except.error "connection refused"

/-- Witness for C9: a failing scorer still yields a complete report with an
empty guardrail section. -/
theorem claim9_witness :
    (score_prompt {} postFail "Prompt" "financial").fst
        = Except.error "connection refused"
    ∧ (process_prompt {} { method := Method.redact } postFail capNoop
        "Prompt" "financial").guardrail = none
    ∧ (process_prompt {} { method := Method.redact } postFail capNoop
        "Prompt" "financial").sanitization
      = (sanitize { method := Method.redact } capNoop "Prompt").fst :=
  ⟨rfl,
    claim9_forge_total {} { method := Method.redact } postFail capNoop
      "Prompt" "financial" "connection refused" rfl⟩

/-- Claim C10: score_prompt issues exactly one post carrying the prompt and
domain, reads outcome and score from the first message, and takes the
explanation from the first processor with a non-empty explanation (else the
first one), so the explanation is present whenever such a processor
exists. -/
theorem claim10_guardrail_client
    (cfg : GuardrailConfig)
    (post : String → String → Except String GuardrailResponse)
    (prompt domain : String) (resp : GuardrailResponse)
    (msg : GuardrailMessage)
    (hpost : post prompt domain = Except.ok resp)
    (hmsg : resp.messages.head? = some msg) :
    (score_prompt cfg post prompt domain).snd = [(prompt, domain)]
    ∧ ∃ r, (score_prompt cfg post prompt domain).fst = Except.ok r
        ∧ r.score = msg.score
        ∧ (∀ o, msg.outcome = some o → r.outcome = o)
        ∧ r.explanation = pickExplanation msg.processors
        ∧ ((∃ p ∈ msg.processors, p.explanation ≠ "") →
            r.explanation.isSome = true) := by
  have hscore : (score_prompt cfg post prompt domain).fst
      = Except.ok
          { outcome := msg.outcome.getD
              (if cfg.rejection_threshold ≤ msg.score then "rejected"
               else "accepted"),
            score := msg.score,
            explanation := pickExplanation msg.processors,
            raw_response := resp } := by
    unfold score_prompt
    rw [hpost]
    dsimp only
    rw [hmsg]
  refine ⟨rfl, _, hscore, rfl, ?_, rfl, ?_⟩
  · intro o ho
    dsimp only
    rw [ho]
    rfl
  · intro hex
    dsimp only
    unfold pickExplanation
    have hfind : (msg.processors.find?
        (fun p => !(p.explanation == ""))).isSome = true := by
      apply find?_isSome_of_ex
      obtain ⟨p, hp, hne⟩ := hex
      refine ⟨p, hp, ?_⟩
      simp [hne]
    rcases hf : msg.processors.find? (fun p => !(p.explanation == ""))
        with _ | p
    · rw [hf] at hfind
      cases hfind
    · rw [hf]
      rfl

/-- Witness for C10: a single post is issued, outcome and score come from
the first message, and the explanation is present since a processor carries
a non-empty one. -/
theorem claim10_witness :
    (score_prompt { rejection_threshold := 0.7 } postPreserve
        "Test prompt" "customer-support").snd
      = [("Test prompt", "customer-support")]
    ∧ ∃ r, (score_prompt { rejection_threshold := 0.7 } postPreserve
          "Test prompt" "customer-support").fst = Except.ok r
        ∧ r.score = msgPreserve.score
        ∧ (∀ o, msgPreserve.outcome = some o → r.outcome = o)
        ∧ r.explanation = pickExplanation msgPreserve.processors
        ∧ ((∃ p ∈ msgPreserve.processors, p.explanation ≠ "") →
            r.explanation.isSome = true) :=
  claim10_guardrail_client { rejection_threshold := 0.7 } postPreserve
    "Test prompt" "customer-support" respPreserve msgPreserve rfl rfl

/-! ### Scenario helpers for the sanitizer claims -/

theorem lineOutcomes_eq (cfg : SanitizationConfig) (cap : Capability)
    (prompt : String) (g : String → LineOutcome)
    (h : ∀ l ∈ splitLines prompt, lineOutcome cfg cap l = g l) :
    lineOutcomes cfg cap prompt = (splitLines prompt).map g :=
  map_congr_mem _ g _ h

theorem methodUsedOf_eq_fallback (cfg : SanitizationConfig) (cap : Capability)
    (prompt : String)
    (h : (lineOutcomes cfg cap prompt).any (fun o => o.usedFallback) = true) :
    methodUsedOf cfg cap prompt = cfg.fallback_method := by
  unfold methodUsedOf
  simp [h]

theorem methodUsedOf_eq_primary (cfg : SanitizationConfig) (cap : Capability)
    (prompt : String)
    (h : (lineOutcomes cfg cap prompt).any (fun o => o.usedFallback) = false) :
    methodUsedOf cfg cap prompt = cfg.method := by
  unfold methodUsedOf
  simp [h]

theorem errOf_none (cfg : SanitizationConfig) (cap : Capability)
    (prompt : String)
    (h : ∀ o ∈ lineOutcomes cfg cap prompt, o.err = none) :
    errOf cfg cap prompt = none := by
  unfold errOf
  rw [filterMap_none_of_all _ _ h]
  rfl

theorem errOf_eq_some (cfg : SanitizationConfig) (cap : Capability)
    (prompt : String) (m : String)
    (hex : ∃ o ∈ lineOutcomes cfg cap prompt, o.err = some m)
    (hall : ∀ o ∈ lineOutcomes cfg cap prompt, ∀ x, o.err = some x → x = m) :
    errOf cfg cap prompt = some m := by
  unfold errOf
  apply head?_of_all_eq
  · obtain ⟨o, ho, hom⟩ := hex
    exact List.ne_nil_of_mem (List.mem_filterMap.mpr ⟨o, ho, hom⟩)
  · intro x hx
    obtain ⟨o, ho, hox⟩ := List.mem_filterMap.mp hx
    exact hall o ho x hox

/-! ### Claim C1 -/

/-- Claim C1: if the primary method is protect and every protect call on a
non-empty line raises while the fallback redact call succeeds, the result
uses the redact fallback, records no sanitize error, reassembles the
fallback outputs, and leaves the unprotected prompt empty. -/
theorem claim1_protect_fallback
    (cfg : SanitizationConfig) (cap : Capability) (prompt : String)
    (f e : String → String)
    (hm : cfg.method = Method.protect)
    (hfb : cfg.fallback_method = Method.redact)
    (hp : ∀ l ∈ splitLines prompt, l ≠ "" →
      cap.find_and_protect l = Except.error (e l))
    (hr : ∀ l ∈ splitLines prompt, l ≠ "" →
      cap.find_and_redact l = Except.ok (f l))
    (hne : ∃ l ∈ splitLines prompt, l ≠ "") :
    (sanitize cfg cap prompt).fst.method_used = Method.redact
    ∧ (sanitize cfg cap prompt).fst.sanitize_error = none
    ∧ (sanitize cfg cap prompt).fst.sanitized_prompt
        = joinLines ((splitLines prompt).map (fun l => if l = "" then l else f l))
    ∧ (sanitize cfg cap prompt).fst.unprotected_prompt = none := by
  have hTf : ∀ l ∈ splitLines prompt, l ≠ "" →
      transformFor cap cfg.method l = Except.error (e l) := by
    intro l hl hln
    rw [hm]
    exact hp l hl hln
  have hFf : ∀ l ∈ splitLines prompt, l ≠ "" →
      transformFor cap cfg.fallback_method l = Except.ok (f l) := by
    intro l hl hln
    rw [hfb]
    exact hr l hl hln
  have hfne : cfg.fallback_method ≠ cfg.method := by
    rw [hm, hfb]
    decide
  have hmap : lineOutcomes cfg cap prompt
      = (splitLines prompt).map (fun l =>
          if l = "" then passOutcome l else
            { text := f l, rawText := f l, usedFallback := true, err := none,
              events := [Event.configure (compositeMap (cap.discover l)),
                Event.transform cfg.method l,
                Event.transform cfg.fallback_method l],
              entities := normalizeEntities (cap.discover l) }) := by
    apply lineOutcomes_eq
    intro l hl
    unfold lineOutcome
    by_cases hln : l = ""
    · rw [if_pos hln, if_pos hln]
    · rw [if_neg hln, if_neg hln]
      exact sanitizeLine_fallback_ok cfg cap l (e l) (f l)
        (hTf l hl hln) hfne (hFf l hl hln)
  have hany : (lineOutcomes cfg cap prompt).any (fun o => o.usedFallback)
      = true := by
    rw [hmap]
    obtain ⟨l0, hl0, hln0⟩ := hne
    apply List.any_eq_true.mpr
    refine ⟨_, List.mem_map_of_mem _ hl0, ?_⟩
    rw [if_neg hln0]
  have hmu : methodUsedOf cfg cap prompt = Method.redact := by
    rw [methodUsedOf_eq_fallback cfg cap prompt hany, hfb]
  have herr : errOf cfg cap prompt = none := by
    apply errOf_none
    intro o ho
    rw [hmap] at ho
    obtain ⟨l, hl, rfl⟩ := List.mem_map.mp ho
    by_cases hln : l = ""
    · rw [if_pos hln]
      rfl
    · rw [if_neg hln]
  refine ⟨?_, ?_, ?_, ?_⟩
  · rw [sanitize_method_used]
    exact hmu
  · rw [sanitize_err]
    exact herr
  · rw [sanitize_sanitized]
    unfold joinedOf
    rw [hmap, List.map_map]
    congr 1
    apply map_congr_mem
    intro l hl
    by_cases hln : l = ""
    · rw [Function.comp_apply, if_pos hln, if_pos hln]
      rfl
    · rw [Function.comp_apply, if_neg hln, if_neg hln]
  · apply sanitize_unprotected_of_not
    intro hcon
    rw [hmu] at hcon
    cases hcon.1

/-- The capability of the fallback scenario: protection raises, redaction
succeeds with a fixed replacement. -/
def capFallback : Capability :=
  { discover := fun _ => [("PERSON", [])]
    find_and_protect := fun _ => Except.error "protection unavailable"
    find_and_redact := fun _ => Except.ok "[REDACTED]"
    find_and_unprotect := fun _ => Except.error "unused" }

/-- Witness for C1 at the pipeline-test scenario: a protect sanitizer whose
protect call raises falls back to redaction with no recorded error. -/
theorem claim1_witness :
    (∃ l ∈ splitLines "Sensitive prompt with PII", l ≠ "")
    ∧ ((sanitize { method := Method.protect } capFallback
          "Sensitive prompt with PII").fst.method_used = Method.redact
      ∧ (sanitize { method := Method.protect } capFallback
          "Sensitive prompt with PII").fst.sanitize_error = none
      ∧ (sanitize { method := Method.protect } capFallback
          "Sensitive prompt with PII").fst.sanitized_prompt
        = joinLines ((splitLines "Sensitive prompt with PII").map
            (fun l => if l = "" then l else "[REDACTED]"))
      ∧ (sanitize { method := Method.protect } capFallback
          "Sensitive prompt with PII").fst.unprotected_prompt = none) :=
  ⟨by decide,
    claim1_protect_fallback { method := Method.protect } capFallback
      "Sensitive prompt with PII" (fun _ => "[REDACTED]")
      (fun _ => "protection unavailable") rfl rfl
      (by intro l _ _; rfl) (by intro l _ _; rfl) (by decide)⟩

/-! ### Claim C5 -/

/-- Claim C5: with the protect method, if the protect call returns every
non-empty line unchanged without raising and entities were discovered for
some line, then the sanitize error is set and contains the silent-failure
phrase, the sanitized prompt equals the original input, and the unprotected
prompt is empty. -/
theorem claim5_silent_failure
    (cfg : SanitizationConfig) (cap : Capability) (prompt : String)
    (hm : cfg.method = Method.protect)
    (hok : ∀ l ∈ splitLines prompt, l ≠ "" →
      cap.find_and_protect l = Except.ok l)
    (hent : ∃ l ∈ splitLines prompt, l ≠ "" ∧
      (cap.discover l).isEmpty = false) :
    (sanitize cfg cap prompt).fst.method_used = Method.protect
    ∧ (∃ m, (sanitize cfg cap prompt).fst.sanitize_error = some m
        ∧ "Protection did not modify the text".data <:+: m.data)
    ∧ (sanitize cfg cap prompt).fst.sanitized_prompt = prompt
    ∧ (sanitize cfg cap prompt).fst.unprotected_prompt = none := by
  have hTf : ∀ l ∈ splitLines prompt, l ≠ "" →
      transformFor cap cfg.method l = Except.ok l := by
    intro l hl hln
    rw [hm]
    exact hok l hl hln
  have hmap : lineOutcomes cfg cap prompt
      = (splitLines prompt).map (fun l =>
          if l = "" then passOutcome l else
            { text := l, rawText := l, usedFallback := false,
              err := if (cap.discover l).isEmpty then none
                else some silentFailureMessage,
              events := [Event.configure (compositeMap (cap.discover l)),
                Event.transform cfg.method l],
              entities := normalizeEntities (cap.discover l) }) := by
    apply lineOutcomes_eq
    intro l hl
    unfold lineOutcome
    by_cases hln : l = ""
    · rw [if_pos hln, if_pos hln]
    · rw [if_neg hln, if_neg hln]
      cases hE : (cap.discover l).isEmpty with
      | true =>
        have hsf : silentFailure cfg (cap.discover l) l l = false := by
          unfold silentFailure
          rw [hE]
          simp
        rw [sanitizeLine_ok cfg cap l l (hTf l hl hln) hsf]
        simp [hE]
      | false =>
        have hsf : silentFailure cfg (cap.discover l) l l = true := by
          unfold silentFailure
          rw [hE, hm]
          simp
        rw [sanitizeLine_silent cfg cap l l (hTf l hl hln) hsf]
        simp [hE]
  have hany : (lineOutcomes cfg cap prompt).any (fun o => o.usedFallback)
      = false := by
    rw [hmap]
    apply any_eq_false_of_all
    intro o ho
    obtain ⟨l, hl, rfl⟩ := List.mem_map.mp ho
    by_cases hln : l = ""
    · rw [if_pos hln]
      rfl
    · rw [if_neg hln]
  have hmu : methodUsedOf cfg cap prompt = Method.protect := by
    rw [methodUsedOf_eq_primary cfg cap prompt hany, hm]
  have herr : errOf cfg cap prompt = some silentFailureMessage := by
    apply errOf_eq_some
    · obtain ⟨l0, hl0, hln0, hE0⟩ := hent
      rw [hmap]
      refine ⟨_, List.mem_map_of_mem _ hl0, ?_⟩
      rw [if_neg hln0]
      simp only
      rw [hE0]
      rfl
    · intro o ho x hox
      rw [hmap] at ho
      obtain ⟨l, hl, rfl⟩ := List.mem_map.mp ho
      by_cases hln : l = ""
      · rw [if_pos hln] at hox
        cases hox
      · rw [if_neg hln] at hox
        simp only at hox
        cases hE : (cap.discover l).isEmpty <;> rw [hE] at hox
        · cases hox
          rfl
        · cases hox
  refine ⟨?_, ?_, ?_, ?_⟩
  · rw [sanitize_method_used]
    exact hmu
  · rw [sanitize_err, herr]
    refine ⟨silentFailureMessage, rfl, ⟨[], " despite discovered entities".data, rfl⟩⟩
  · rw [sanitize_sanitized]
    unfold joinedOf
    rw [hmap, List.map_map]
    have : ((splitLines prompt).map
        ((fun o => o.text) ∘ (fun l =>
          if l = "" then passOutcome l else
            { text := l, rawText := l, usedFallback := false,
              err := if (cap.discover l).isEmpty then none
                else some silentFailureMessage,
              events := [Event.configure (compositeMap (cap.discover l)),
                Event.transform cfg.method l],
              entities := normalizeEntities (cap.discover l) })))
        = splitLines prompt := by
      have hid : ∀ l ∈ splitLines prompt,
          ((fun o => o.text) ∘ (fun l =>
            if l = "" then passOutcome l else
              { text := l, rawText := l, usedFallback := false,
                err := if (cap.discover l).isEmpty then none
                  else some silentFailureMessage,
                events := [Event.configure (compositeMap (cap.discover l)),
                  Event.transform cfg.method l],
                entities := normalizeEntities (cap.discover l) })) l
            = id l := by
        intro l hl
        by_cases hln : l = ""
        · rw [Function.comp_apply, if_pos hln]
          rfl
        · rw [Function.comp_apply, if_neg hln]
          rfl
      rw [map_congr_mem _ id _ hid, List.map_id]
    rw [this, joinLines_splitLines]
  · apply sanitize_unprotected_of_not
    intro hcon
    rw [herr] at hcon
    cases hcon.2

/-- The capability of the silent-failure scenario: entities are discovered
but the protect call returns its input unchanged. -/
def capSilent : Capability :=
  { discover := fun _ => [("EMAIL", [{ start_index := 0, end_index := 15 }])]
    find_and_protect := fun l => Except.ok l
    find_and_redact := fun _ => Except.error "unused"
    find_and_unprotect := fun _ => Except.error "unused" }

/-- Witness for C5 at the sanitizer-test scenario. -/
theorem claim5_witness :
    (∃ l ∈ splitLines "Test prompt", l ≠ "" ∧
        (capSilent.discover l).isEmpty = false)
    ∧ ((sanitize { method := Method.protect } capSilent
          "Test prompt").fst.method_used = Method.protect
      ∧ (∃ m, (sanitize { method := Method.protect } capSilent
            "Test prompt").fst.sanitize_error = some m
          ∧ "Protection did not modify the text".data <:+: m.data)
      ∧ (sanitize { method := Method.protect } capSilent
          "Test prompt").fst.sanitized_prompt = "Test prompt"
      ∧ (sanitize { method := Method.protect } capSilent
          "Test prompt").fst.unprotected_prompt = none) :=
  ⟨by decide,
    claim5_silent_failure { method := Method.protect } capSilent
      "Test prompt" rfl (by intro l _ _; rfl) (by decide)⟩

/-! ### Claim C8 (corrected) -/

/-- The capability of the partial-failure scenario: redaction succeeds on
the first line and raises on the second. -/
def capPartial : Capability :=
  { discover := fun _ => []
    find_and_protect := fun _ => Except.error "unused"
    find_and_redact := fun l =>
      if l = "a" then Except.ok "X" else Except.error "boom"
    find_and_unprotect := fun _ => Except.error "unused" }

/-- Counterexample to C8 as stated: on a two-line prompt whose transform
fails only on the second line, the sanitize error is set yet the sanitized
prompt is a partial transform, not the original input. -/
theorem claim8_counterexample :
    ((sanitize { method := Method.redact } capPartial
        "a\nb").fst.sanitize_error).isSome = true
    ∧ ¬ ((sanitize { method := Method.redact } capPartial
        "a\nb").fst.sanitized_prompt = "a\nb") := by
  decide

/-- Claim C8 as amended: a failed line always passes through as its
original text, so whenever the sanitize error is set on a single-line
prompt the sanitized prompt equals the original input (in particular it is
never empty for a non-empty input). -/
theorem claim8_amended
    (cfg : SanitizationConfig) (cap : Capability) (prompt : String)
    (hnl : '\n' ∉ prompt.data)
    (herr : ((sanitize cfg cap prompt).fst.sanitize_error).isSome = true) :
    (sanitize cfg cap prompt).fst.sanitized_prompt = prompt := by
  have hsplit : splitLines prompt = [prompt] := splitLines_single prompt hnl
  have hout : lineOutcomes cfg cap prompt = [lineOutcome cfg cap prompt] := by
    unfold lineOutcomes
    rw [hsplit, List.map_cons, List.map_nil]
  rw [sanitize_err] at herr
  unfold errOf at herr
  rw [hout] at herr
  rcases he : (lineOutcome cfg cap prompt).err with _ | m
  · rw [List.filterMap_cons, he] at herr
    simp at herr
  · have htext : (lineOutcome cfg cap prompt).text = prompt := by
      by_cases hpe : prompt = ""
      · unfold lineOutcome
        rw [if_pos hpe]
        rfl
      · unfold lineOutcome at he ⊢
        rw [if_neg hpe] at he ⊢
        apply sanitizeLine_err_text
        rw [he]
        rfl
    rw [sanitize_sanitized]
    unfold joinedOf
    rw [hout, List.map_cons, List.map_nil, htext, joinLines_singleton]

/-- The capability of the total-failure scenario: both protect and redact
raise. -/
def capBothFail : Capability :=
  { discover := fun _ => []
    find_and_protect := fun _ => Except.error "protection unavailable"
    find_and_redact := fun _ => Except.error "redaction unavailable"
    find_and_unprotect := fun _ => Except.error "unused" }

/-- Witness for the amended C8: a single-line prompt whose transforms all
fail degrades to the original input. -/
theorem claim8_witness :
    ('\n' ∉ "Test prompt".data)
    ∧ ((sanitize { method := Method.protect } capBothFail
        "Test prompt").fst.sanitize_error).isSome = true
    ∧ (sanitize { method := Method.protect } capBothFail
        "Test prompt").fst.sanitized_prompt = "Test prompt" :=
  ⟨by decide, by decide,
    claim8_amended { method := Method.protect } capBothFail "Test prompt"
      (by decide) (by decide)⟩

/-! ### Claim C6 -/

/-- Claim C6: when the method used is protect, sanitization records no
error, and the single reversal call on the raw sanitized text succeeds with
the line-joined original prompt (the round-trip law of the engine), the
unprotected prompt equals that original prompt. -/
theorem claim6_roundtrip
    (cfg : SanitizationConfig) (cap : Capability) (prompt : String)
    (f : String → String)
    (hm : cfg.method = Method.protect)
    (hok : ∀ l ∈ splitLines prompt, l ≠ "" →
      cap.find_and_protect l = Except.ok (f l))
    (hns : ∀ l ∈ splitLines prompt, l ≠ "" →
      silentFailure cfg (cap.discover l) l (f l) = false)
    (hu : cap.find_and_unprotect
        ((sanitize cfg cap prompt).fst.raw_sanitized_prompt)
      = Except.ok prompt) :
    (sanitize cfg cap prompt).fst.method_used = Method.protect
    ∧ (sanitize cfg cap prompt).fst.sanitize_error = none
    ∧ (sanitize cfg cap prompt).fst.unprotected_prompt = some prompt
    ∧ prompt = joinLines (splitLines prompt) := by
  have hTf : ∀ l ∈ splitLines prompt, l ≠ "" →
      transformFor cap cfg.method l = Except.ok (f l) := by
    intro l hl hln
    rw [hm]
    exact hok l hl hln
  have hmap : lineOutcomes cfg cap prompt
      = (splitLines prompt).map (fun l =>
          if l = "" then passOutcome l else
            { text := f l, rawText := f l, usedFallback := false, err := none,
              events := [Event.configure (compositeMap (cap.discover l)),
                Event.transform cfg.method l],
              entities := normalizeEntities (cap.discover l) }) := by
    apply lineOutcomes_eq
    intro l hl
    unfold lineOutcome
    by_cases hln : l = ""
    · rw [if_pos hln, if_pos hln]
    · rw [if_neg hln, if_neg hln]
      exact sanitizeLine_ok cfg cap l (f l) (hTf l hl hln) (hns l hl hln)
  have hany : (lineOutcomes cfg cap prompt).any (fun o => o.usedFallback)
      = false := by
    rw [hmap]
    apply any_eq_false_of_all
    intro o ho
    obtain ⟨l, hl, rfl⟩ := List.mem_map.mp ho
    by_cases hln : l = ""
    · rw [if_pos hln]
      rfl
    · rw [if_neg hln]
  have hmu : methodUsedOf cfg cap prompt = Method.protect := by
    rw [methodUsedOf_eq_primary cfg cap prompt hany, hm]
  have herr : errOf cfg cap prompt = none := by
    apply errOf_none
    intro o ho
    rw [hmap] at ho
    obtain ⟨l, hl, rfl⟩ := List.mem_map.mp ho
    by_cases hln : l = ""
    · rw [if_pos hln]
      rfl
    · rw [if_neg hln]
  rw [sanitize_raw] at hu
  refine ⟨?_, ?_, ?_, (joinLines_splitLines prompt).symm⟩
  · rw [sanitize_method_used]
    exact hmu
  · rw [sanitize_err]
    exact herr
  · exact sanitize_unprotected_ok cfg cap prompt prompt hmu herr hu

/-- The capability of the unprotect round-trip scenario. -/
def capProtect : Capability :=
  { discover := fun _ => []
    find_and_protect := fun _ =>
      Except.ok "[TOKEN]abc123[/TOKEN] prompt with [TOKEN]def456[/TOKEN]"
    find_and_redact := fun _ => Except.error "unused"
    find_and_unprotect := fun t =>
      if t = "[TOKEN]abc123[/TOKEN] prompt with [TOKEN]def456[/TOKEN]" then
        Except.ok "Test prompt with data"
      else Except.error "unknown token" }

/-- Witness for C6 at the sanitizer-test scenario. -/
theorem claim6_witness :
    capProtect.find_and_unprotect
        ((sanitize { method := Method.protect } capProtect
          "Test prompt with data").fst.raw_sanitized_prompt)
      = Except.ok "Test prompt with data"
    ∧ ((sanitize { method := Method.protect } capProtect
          "Test prompt with data").fst.method_used = Method.protect
      ∧ (sanitize { method := Method.protect } capProtect
          "Test prompt with data").fst.sanitize_error = none
      ∧ (sanitize { method := Method.protect } capProtect
          "Test prompt with data").fst.unprotected_prompt
        = some "Test prompt with data"
      ∧ "Test prompt with data"
        = joinLines (splitLines "Test prompt with data")) :=
  ⟨by rfl,
    claim6_roundtrip { method := Method.protect } capProtect
      "Test prompt with data"
      (fun _ => "[TOKEN]abc123[/TOKEN] prompt with [TOKEN]def456[/TOKEN]")
      rfl (by intro l _ _; rfl) (by decide) (by rfl)⟩

/-! ### Claim C7 -/

/-- Claim C7: the display prompt of a protect sanitization is the raw
sanitized text with each token payload replaced by the fixed mask, so the
literal token value is absent from the display; for redact the display
prompt is identical to the sanitized output. -/
theorem claim7_display_masking
    (cfg : SanitizationConfig) (cap : Capability) (prompt : String) :
    ((sanitize cfg cap prompt).fst.method_used = Method.protect →
      (sanitize cfg cap prompt).fst.display_prompt
        = maskTokens ((sanitize cfg cap prompt).fst.raw_sanitized_prompt))
    ∧ ((sanitize cfg cap prompt).fst.method_used = Method.redact →
      (sanitize cfg cap prompt).fst.display_prompt
        = (sanitize cfg cap prompt).fst.sanitized_prompt)
    ∧ maskTokens "[TOKEN]Restored prompt[/TOKEN]" = "[TOKEN]***[/TOKEN]"
    ∧ ¬ ("Restored prompt".data <:+: "[TOKEN]***[/TOKEN]".data) := by
  refine ⟨?_, ?_, by decide, by decide⟩
  · intro h
    rw [sanitize_method_used] at h
    rw [sanitize_raw]
    exact sanitize_display_protect cfg cap prompt h
  · intro h
    rw [sanitize_method_used] at h
    rw [sanitize_sanitized]
    exact sanitize_display_redact cfg cap prompt h

instance instDecEqExcept {ε α : Type} [DecidableEq ε] [DecidableEq α] :
    DecidableEq (Except ε α) := fun x y =>
  match x, y with
  | Except.ok a, Except.ok b =>
    if h : a = b then isTrue (by rw [h])
    else isFalse (fun hc => h (by injection hc))
  | Except.error a, Except.error b =>
    if h : a = b then isTrue (by rw [h])
    else isFalse (fun hc => h (by injection hc))
  | Except.ok _, Except.error _ => isFalse (fun hc => Except.noConfusion hc)
  | Except.error _, Except.ok _ => isFalse (fun hc => Except.noConfusion hc)

/-- The capability of the display-masking scenario. -/
def capToken : Capability :=
  { discover := fun _ => []
    find_and_protect := fun _ => Except.ok "[TOKEN]Restored prompt[/TOKEN]"
    find_and_redact := fun _ => Except.error "unused"
    find_and_unprotect := fun _ => Except.ok "Restored prompt" }

/-- Witness for C7 at the pipeline-test scenario: the raw token text is
displayed with the payload masked. -/
theorem claim7_witness :
    (sanitize { method := Method.protect } capToken
        "Prompt").fst.method_used = Method.protect
    ∧ (sanitize { method := Method.protect } capToken
        "Prompt").fst.display_prompt = "[TOKEN]***[/TOKEN]" := by
  refine ⟨by decide, ?_⟩
  have h := (claim7_display_masking { method := Method.protect } capToken
    "Prompt").1 (by decide)
  rw [h]
  decide

/-! ### Claim C3 (corrected) -/

theorem flatten_ite_nil {α β : Type} [DecidableEq α] (f : α → β) (b : α)
    (l : List α) :
    (l.map (fun a => if a = b then ([] : List β) else [f a])).flatten
      = (l.filter (fun a => !(a == b))).map f := by
  induction l with
  | nil => rfl
  | cons a t ih =>
    rw [List.map_cons, List.flatten_cons, List.filter_cons]
    by_cases h : a = b
    · simp [h, ih]
    · simp [h, ih]

/-- Counterexample to C3 as stated: when a primary protect call raises, the
fallback redact call makes a second transform invocation for the same line,
so a one-line prompt sees two transform calls, not one. -/
theorem claim3_counterexample :
    ¬ ((transformCalls (sanitize { method := Method.protect } capFallback
          "a").snd).length
        = ((splitLines "a").filter (fun l => !(l == ""))).length) := by
  decide

/-- Claim C3 as amended: when the primary transform succeeds on every
non-empty line, sanitize invokes the transform exactly once per non-empty
line, in original order with that line as argument, and the reassembled
output keeps line order and blank-line structure; a failing primary call
adds one fallback invocation for its line. -/
theorem claim3_amended
    (cfg : SanitizationConfig) (cap : Capability) (prompt : String)
    (f : String → String)
    (hok : ∀ l ∈ splitLines prompt, l ≠ "" →
      transformFor cap cfg.method l = Except.ok (f l)) :
    transformCalls (sanitize cfg cap prompt).snd
      = ((splitLines prompt).filter (fun l => !(l == ""))).map
          (fun l => Event.transform cfg.method l)
    ∧ (sanitize cfg cap prompt).fst.sanitized_prompt
      = joinLines ((splitLines prompt).map
          (fun l => if l = "" then l else f l)) := by
  have htext : ∀ l ∈ splitLines prompt, l ≠ "" →
      (sanitizeLine cfg cap l).text = f l := by
    intro l hl hln
    unfold sanitizeLine
    rw [hok l hl hln]
    dsimp only
    by_cases hs : silentFailure cfg (cap.discover l) l (f l) = true
    · rw [if_pos hs]
      have hfl : f l = l := by
        unfold silentFailure at hs
        simp only [Bool.and_eq_true, beq_iff_eq] at hs
        exact hs.1.2
      exact hfl.symm
    · rw [if_neg hs]
  have hev : ∀ l ∈ splitLines prompt,
      (lineOutcome cfg cap l).events
        = if l = "" then [] else
            [Event.configure (compositeMap (cap.discover l)),
              Event.transform cfg.method l] := by
    intro l hl
    unfold lineOutcome
    by_cases hln : l = ""
    · rw [if_pos hln, if_pos hln]
      rfl
    · rw [if_neg hln, if_neg hln]
      unfold sanitizeLine
      rw [hok l hl hln]
      dsimp only
      split <;> rfl
  constructor
  · rw [sanitize_transformCalls]
    unfold baseEventsOf lineOutcomes
    rw [List.map_map]
    have h1 : (splitLines prompt).map
        ((fun o => o.events) ∘ lineOutcome cfg cap)
        = (splitLines prompt).map (fun l =>
            if l = "" then [] else
              [Event.configure (compositeMap (cap.discover l)),
                Event.transform cfg.method l]) := by
      apply map_congr_mem
      intro l hl
      rw [Function.comp_apply]
      exact hev l hl
    rw [h1, transformCalls_flatten, List.map_map]
    have h2 : (splitLines prompt).map
        (transformCalls ∘ (fun l =>
          if l = "" then [] else
            [Event.configure (compositeMap (cap.discover l)),
              Event.transform cfg.method l]))
        = (splitLines prompt).map (fun l =>
            if l = "" then [] else [Event.transform cfg.method l]) := by
      apply map_congr_mem
      intro l hl
      rw [Function.comp_apply]
      by_cases hln : l = ""
      · rw [if_pos hln, if_pos hln]
        rfl
      · rw [if_neg hln, if_neg hln]
        rfl
    rw [h2, flatten_ite_nil (fun l => Event.transform cfg.method l) "" _]
  · rw [sanitize_sanitized]
    unfold joinedOf lineOutcomes
    rw [List.map_map]
    congr 1
    apply map_congr_mem
    intro l hl
    rw [Function.comp_apply]
    unfold lineOutcome
    by_cases hln : l = ""
    · rw [if_pos hln, if_pos hln]
      rfl
    · rw [if_neg hln, if_neg hln]
      exact htext l hl hln

/-- The capability of the per-line redaction scenario. -/
def capRedactLines : Capability :=
  { discover := fun _ => []
    find_and_protect := fun _ => Except.error "unused"
    find_and_redact := fun l =>
      if l = "Names line" then Except.ok "[PERSON] [PERSON]"
      else if l = "Phone line" then Except.ok "[PHONE]"
      else Except.error "unexpected line"
    find_and_unprotect := fun _ => Except.error "unused" }

/-- Witness for the amended C3 at the pipeline-test scenario: two non-empty
lines around a blank line get exactly two transform calls and the blank
line is preserved. -/
theorem claim3_witness :
    (∀ l ∈ splitLines "Names line\n\nPhone line", l ≠ "" →
      transformFor capRedactLines Method.redact l
        = Except.ok (if l = "Names line" then "[PERSON] [PERSON]" else "[PHONE]"))
    ∧ (transformCalls (sanitize { method := Method.redact } capRedactLines
          "Names line\n\nPhone line").snd
        = ((splitLines "Names line\n\nPhone line").filter
            (fun l => !(l == ""))).map
            (fun l => Event.transform Method.redact l)
      ∧ (sanitize { method := Method.redact } capRedactLines
          "Names line\n\nPhone line").fst.sanitized_prompt
        = joinLines ((splitLines "Names line\n\nPhone line").map
            (fun l => if l = "" then l
              else if l = "Names line" then "[PERSON] [PERSON]" else "[PHONE]"))) :=
  ⟨by decide,
    claim3_amended { method := Method.redact } capRedactLines
      "Names line\n\nPhone line"
      (fun l => if l = "Names line" then "[PERSON] [PERSON]" else "[PHONE]")
      (by decide)⟩

/-! ### Claim C4 -/

theorem keysOf_subset_insertOccurrences (lab : String) (occs : List Location)
    (E : Entities) : ∀ k ∈ keysOf E, k ∈ keysOf (insertOccurrences lab occs E) := by
  induction E with
  | nil =>
    intro k hk
    cases hk
  | cons e rest ih =>
    obtain ⟨l, os⟩ := e
    intro k hk
    simp only [keysOf, List.map_cons, List.mem_cons] at hk
    simp only [insertOccurrences]
    by_cases hl : l = lab
    · rw [if_pos hl]
      simp only [keysOf, List.map_cons, List.mem_cons]
      exact hk
    · rw [if_neg hl]
      simp only [keysOf, List.map_cons, List.mem_cons]
      rcases hk with h1 | h1
      · exact Or.inl h1
      · exact Or.inr (ih k h1)

theorem self_mem_keysOf_insertOccurrences (lab : String) (occs : List Location)
    (E : Entities) : lab ∈ keysOf (insertOccurrences lab occs E) := by
  induction E with
  | nil =>
    simp [insertOccurrences, keysOf]
  | cons e rest ih =>
    obtain ⟨l, os⟩ := e
    simp only [insertOccurrences]
    by_cases hl : l = lab
    · rw [if_pos hl]
      simp [keysOf, hl]
    · rw [if_neg hl]
      simp only [keysOf, List.map_cons, List.mem_cons]
      exact Or.inr ih

theorem keysOf_subset_insertAll (base : Entities) (items : Entities) :
    ∀ k ∈ keysOf base, k ∈ keysOf (insertAll base items) := by
  induction items generalizing base with
  | nil =>
    intro k hk
    exact hk
  | cons e rest ih =>
    intro k hk
    show k ∈ keysOf (insertAll (insertOccurrences e.1 e.2 base) rest)
    exact ih _ k (keysOf_subset_insertOccurrences e.1 e.2 base k hk)

theorem item_mem_keysOf_insertAll (items : Entities)
    (e : String × List Location) (he : e ∈ items) :
    ∀ base, e.1 ∈ keysOf (insertAll base items) := by
  induction items with
  | nil => cases he
  | cons a rest ih =>
    intro base
    rcases List.mem_cons.mp he with h1 | h1
    · subst h1
      show e.1 ∈ keysOf (insertAll (insertOccurrences e.1 e.2 base) rest)
      exact keysOf_subset_insertAll _ rest e.1
        (self_mem_keysOf_insertOccurrences e.1 e.2 base)
    · show e.1 ∈ keysOf (insertAll (insertOccurrences a.1 a.2 base) rest)
      exact ih h1 _

theorem normKey_mem_keysOf_normalizeEntities (ents : Entities)
    (lab : String) (occs : List Location) (h : (lab, occs) ∈ ents) :
    normKey lab ∈ keysOf (normalizeEntities ents) := by
  unfold normalizeEntities
  have hm : ((normKey lab, occs) : String × List Location)
      ∈ ents.map (fun e => (normKey e.1, e.2)) :=
    List.mem_map.mpr ⟨(lab, occs), h, rfl⟩
  exact item_mem_keysOf_insertAll _ _ hm []

theorem keys_foldl_entities (outs : List LineOutcome) :
    ∀ acc k, k ∈ keysOf (outs.foldl (fun acc o => insertAll acc o.entities) acc) →
      k ∈ keysOf acc ∨ ∃ o ∈ outs, k ∈ keysOf o.entities := by
  induction outs with
  | nil =>
    intro acc k hk
    exact Or.inl hk
  | cons a rest ih =>
    intro acc k hk
    rw [List.foldl_cons] at hk
    rcases ih (insertAll acc a.entities) k hk with h1 | h1
    · rcases keysOf_insertAll acc a.entities k h1 with h2 | h2
      · exact Or.inl h2
      · exact Or.inr ⟨a, List.mem_cons_self a rest, h2⟩
    · obtain ⟨o, ho, hko⟩ := h1
      exact Or.inr ⟨o, List.mem_cons_of_mem a ho, hko⟩

theorem keys_foldl_entities_preserved (outs : List LineOutcome) :
    ∀ acc k, k ∈ keysOf acc →
      k ∈ keysOf (outs.foldl (fun acc o => insertAll acc o.entities) acc) := by
  induction outs with
  | nil =>
    intro acc k hk
    exact hk
  | cons a rest ih =>
    intro acc k hk
    rw [List.foldl_cons]
    exact ih _ k (keysOf_subset_insertAll acc a.entities k hk)

theorem mem_keys_foldl_entities (outs : List LineOutcome) (o : LineOutcome)
    (ho : o ∈ outs) (k : String) (hk : k ∈ keysOf o.entities) :
    ∀ acc, k ∈ keysOf (outs.foldl (fun acc o => insertAll acc o.entities) acc) := by
  induction outs with
  | nil => cases ho
  | cons a rest ih =>
    intro acc
    rw [List.foldl_cons]
    rcases List.mem_cons.mp ho with h1 | h1
    · subst h1
      apply keys_foldl_entities_preserved rest _ k
      obtain ⟨e, he, hek⟩ := List.mem_map.mp hk
      rw [← hek]
      exact item_mem_keysOf_insertAll o.entities e he acc
    · exact ih h1 _

theorem middle_of_flatten {l : List Event} {L : List (List Event)}
    (h : l ∈ L) : l <:+: L.flatten := by
  obtain ⟨s, t, rfl⟩ := List.append_of_mem h
  refine ⟨s.flatten, t.flatten, ?_⟩
  rw [List.flatten_append, List.flatten_cons, List.append_assoc]

/-- Claim C4: composite (pipe-joined) discovery labels never appear as
keys of the final discovery entities; each discovered label is exposed
under its canonical key (the first constituent for a composite), and the
transformer is configured with the composite-to-first-constituent map
before the transform call for that line. -/
theorem claim4_composite_labels
    (cfg : SanitizationConfig) (cap : Capability) (prompt : String) :
    (∀ k occs, (k, occs) ∈ (sanitize cfg cap prompt).fst.discovery_entities →
      hasPipe k = false)
    ∧ (∀ l ∈ splitLines prompt, l ≠ "" →
        (∀ lab occs, (lab, occs) ∈ cap.discover l → hasPipe lab = true →
          (lab, canonicalOf lab) ∈ compositeMap (cap.discover l))
        ∧ [Event.configure (compositeMap (cap.discover l)),
            Event.transform cfg.method l] <:+: (sanitize cfg cap prompt).snd
        ∧ (∀ lab occs, (lab, occs) ∈ cap.discover l →
            normKey lab ∈
              keysOf (sanitize cfg cap prompt).fst.discovery_entities)) := by
  constructor
  · intro k occs hk
    rw [sanitize_entities] at hk
    unfold entitiesOf at hk
    have hkk : k ∈ keysOf ((lineOutcomes cfg cap prompt).foldl
        (fun acc o => insertAll acc o.entities) []) :=
      List.mem_map.mpr ⟨(k, occs), hk, rfl⟩
    rcases keys_foldl_entities _ [] k hkk with h1 | h1
    · cases h1
    · obtain ⟨o, ho, hko⟩ := h1
      obtain ⟨l, hl, rfl⟩ := List.mem_map.mp ho
      unfold lineOutcome at hko
      by_cases hln : l = ""
      · rw [if_pos hln] at hko
        cases hko
      · rw [if_neg hln, sanitizeLine_entities] at hko
        exact keysOf_normalizeEntities _ k hko
  · intro l hl hln
    have ho : lineOutcome cfg cap l ∈ lineOutcomes cfg cap prompt :=
      List.mem_map_of_mem _ hl
    have hline : lineOutcome cfg cap l = sanitizeLine cfg cap l := by
      unfold lineOutcome
      rw [if_neg hln]
    refine ⟨?_, ?_, ?_⟩
    · intro lab occs hmem hp
      exact mem_compositeMap (cap.discover l) lab occs hmem hp
    · obtain ⟨tail, htail⟩ := sanitizeLine_events_head cfg cap l
      have hevmem : (sanitizeLine cfg cap l).events
          ∈ (lineOutcomes cfg cap prompt).map (fun o => o.events) := by
        rw [← hline]
        exact List.mem_map_of_mem _ ho
      have hinf1 : (sanitizeLine cfg cap l).events
          <:+: baseEventsOf cfg cap prompt := by
        unfold baseEventsOf
        exact middle_of_flatten hevmem
      have hpre : [Event.configure (compositeMap (cap.discover l)),
          Event.transform cfg.method l] <:+: (sanitizeLine cfg cap l).events := by
        refine ⟨[], tail, ?_⟩
        rw [htail]
        rfl
      have hbase : baseEventsOf cfg cap prompt <:+: (sanitize cfg cap prompt).snd := by
        obtain ⟨extra, hex⟩ := sanitize_events_shape cfg cap prompt
        refine ⟨[], extra, ?_⟩
        rw [hex]
        rfl
      exact hpre.trans (hinf1.trans hbase)
    · intro lab occs hmem
      rw [sanitize_entities]
      unfold entitiesOf
      apply mem_keys_foldl_entities _ (lineOutcome cfg cap l) ho
      rw [hline, sanitizeLine_entities]
      exact normKey_mem_keysOf_normalizeEntities _ lab occs hmem

/-- The capability of the composite-label scenario. -/
def capComposite : Capability :=
  { discover := fun _ =>
      [("PERSON|COMPANY_NAME", [{ start_index := 0, end_index := 4 }])]
    find_and_protect := fun _ => Except.error "unused"
    find_and_redact := fun _ => Except.ok "[PERSON]"
    find_and_unprotect := fun _ => Except.error "unused" }

/-- Witness for C4 at the sanitizer-test scenario: the composite label is
registered as mapping to PERSON before the transform call, and the final
discovery entities expose only the PERSON key. -/
theorem claim4_witness :
    ((∀ lab occs, (lab, occs) ∈ capComposite.discover "Composite label prompt" →
        hasPipe lab = true →
        (lab, canonicalOf lab)
          ∈ compositeMap (capComposite.discover "Composite label prompt"))
      ∧ [Event.configure
            (compositeMap (capComposite.discover "Composite label prompt")),
          Event.transform Method.redact "Composite label prompt"]
          <:+: (sanitize { method := Method.redact } capComposite
            "Composite label prompt").snd
      ∧ (∀ lab occs, (lab, occs) ∈ capComposite.discover "Composite label prompt" →
          normKey lab ∈ keysOf (sanitize { method := Method.redact } capComposite
            "Composite label prompt").fst.discovery_entities))
    ∧ (sanitize { method := Method.redact } capComposite
        "Composite label prompt").fst.discovery_entities
      = [("PERSON", [{ start_index := 0, end_index := 4 }])] :=
  ⟨(claim4_composite_labels { method := Method.redact } capComposite
      "Composite label prompt").2 "Composite label prompt"
      (by decide) (by decide),
   by decide⟩

end TrialCenter
